import Mathlib

/-!
Verification of the extraction-and-resilience core of `scripts/redfin_tracker.py`:
the multipart response decoder (`run_scrape`, lines 99-153), the price
extraction chain (`extract_price`, lines 29-55) and the retry loop
(`main`, lines 155-171).

Modelling conventions.

* Byte strings (`bytes`) and text (`str`) are both modelled as `List Char`,
  one `Char` per byte.  `decode('utf-8', errors='ignore')` is the identity on
  the ASCII range, which is all the fixtures and patterns ever touch, so the
  decode step of the loop is modelled as the identity.
* The three regular expressions of `extract_price` are compiled by hand:
  `re.search` tries every start position from the left and each pattern starts
  with a fixed literal, so a search is a scan for the literal followed by a
  deterministic tail match (`reSearch`).  For the tag patterns the tail
  `[^>]*>.*?\$([\d,]+)` forces: skip to the first `>` after the literal, then
  take the first `$` that is followed by at least one `[0-9,]` character and
  capture the maximal such run (greedy `[\d,]+`).  For the JSON pattern
  `\s*"\\?\$([\d,]+)` the greedy `\s*` must stop exactly at the first
  non-space character (a space can never match the following `"`), and the
  optional backslash is consumed only when the `$`-capture succeeds after it
  (otherwise the engine backtracks, and `\` itself cannot match `\$`).
* A Python function that can raise is modelled with `Except`; `run_scrape`
  wraps its whole body in `try/except Exception: return None`, so the model
  maps every fetch error to a failed attempt.
* The code returns `None` on every failure; the distinct failure branches
  (WAF block, missing boundary, captcha body, empty page, no regex match) are
  reified as constructors of `Outcome`, and `toOpt` recovers the literal
  Python return value.
-/

namespace RedfinTracker

/-- ASCII lower-casing of a character, as Python `str.lower` acts on ASCII. -/
def lowerChar (c : Char) : Char :=
  if 'A' ≤ c ∧ c ≤ 'Z' then Char.ofNat (c.toNat + 32) else c

/-- Python `s.lower()` on ASCII text. -/
def lowerStr (s : List Char) : List Char := s.map lowerChar

/-- Python substring test `pat in s`. -/
def containsSub (pat : List Char) : List Char → Bool
  | [] => pat.isEmpty
  | c :: rest => pat.isPrefixOf (c :: rest) || containsSub pat rest

/-- Index of the first occurrence of `pat` in `s` (Python `bytes.find`,
with `none` for the `-1` case). -/
def findSub (pat : List Char) : List Char → Option Nat
  | [] => if pat.isEmpty then some 0 else none
  | c :: rest =>
    if pat.isPrefixOf (c :: rest) then some 0
    else (findSub pat rest).map (fun i => i + 1)

/-- Python `bytes.split(sep)` for a non-empty separator: split on
non-overlapping occurrences, scanning left to right.  The `Nat` argument is
fuel; `splitOnSep` supplies `s.length`, which dominates the number of steps,
so the `0, s` equation is never reached on a non-empty remainder. -/
def splitOnSepF (sep : List Char) : Nat → List Char → List (List Char)
  | _, [] => [[]]
  | 0, s => [s]
  | Nat.succ fuel, c :: rest =>
    if sep.isPrefixOf (c :: rest) then
      [] :: splitOnSepF sep fuel (rest.drop (sep.length - 1))
    else
      match splitOnSepF sep fuel rest with
      | [] => [c :: []]
      | p :: ps => (c :: p) :: ps

/-- Python `bytes.split(sep)`. -/
def splitOnSep (sep s : List Char) : List (List Char) := splitOnSepF sep s.length s

/-- ASCII decimal digit, Python `\d` on ASCII input. -/
def isAsciiDigit (c : Char) : Bool := ('0' ≤ c) && (c ≤ '9')

/-- The character class `[\d,]`. -/
def isDigitComma (c : Char) : Bool := isAsciiDigit c || (c == ',')

/-- Python `\s` on ASCII input. -/
def isPySpace (c : Char) : Bool :=
  (c == ' ') || (c == '\t') || (c == '\n') || (c == '\r') || (c == '\x0b') || (c == '\x0c')

/-- `([\d,]+)` anchored at the head of `t`: the greedy capture, failing when
no `[0-9,]` character is present. -/
def capDigits (t : List Char) : Option (List Char) :=
  let cap := t.takeWhile isDigitComma
  if cap.isEmpty then none else some cap

/-- `.*?\$([\d,]+)` with `re.DOTALL`: the first `$` followed by at least one
`[0-9,]` character wins (the lazy `.*?` grows past any `$` whose capture
would be empty). -/
def dollarCapture : List Char → Option (List Char)
  | [] => none
  | c :: rest =>
    if c = '$' then
      match capDigits rest with
      | some cap => some cap
      | none => dollarCapture rest
    else dollarCapture rest

/-- Tail of the tag patterns, `[^>]*>.*?\$([\d,]+)`: greedy `[^>]*` can only
stop at the first `>`, then the lazy dollar capture runs on the remainder. -/
def tagTail (s : List Char) : Option (List Char) :=
  match s.dropWhile (fun c => c != '>') with
  | [] => none
  | _ :: t => dollarCapture t

/-- `\$([\d,]+)` anchored at the head, entered after the optional backslash
was consumed. -/
def jsonDollarEsc : List Char → Option (List Char)
  | [] => none
  | d :: t => if d = '$' then capDigits t else none

/-- `\\?\$([\d,]+)` anchored at the head: the optional backslash is kept only
when the dollar capture succeeds after it; with or without it, failure of the
capture fails the whole tail (a leading `\` can never match `\$` itself). -/
def jsonDollar : List Char → Option (List Char)
  | [] => none
  | c :: r =>
    if c = '\\' then jsonDollarEsc r
    else if c = '$' then capDigits r
    else none

/-- Tail of the JSON pattern, `\s*"\\?\$([\d,]+)`: greedy `\s*` stops at the
first non-space, which must be `"`. -/
def jsonTail (s : List Char) : Option (List Char) :=
  match s.dropWhile isPySpace with
  | [] => none
  | c :: r => if c = '"' then jsonDollar r else none

/-- `re.search` for a pattern that opens with the fixed literal `lit` and
continues with the tail matcher `k`: start positions are tried left to right,
and at each occurrence of the literal the tail runs on the remainder. -/
def reSearch (lit : List Char) (k : List Char → Option (List Char)) :
    List Char → Option (List Char)
  | [] => if lit.isEmpty then k [] else none
  | c :: rest =>
    if lit.isPrefixOf (c :: rest) then
      match k ((c :: rest).drop lit.length) with
      | some r => some r
      | none => reSearch lit k rest
    else reSearch lit k rest

/-- Literal head of the primary pattern
`data-rf-test-id="abp-price"[^>]*>.*?\$([\d,]+)`. -/
def abpLit : List Char := "data-rf-test-id=\"abp-price\"".toList

/-- Literal head of the secondary pattern
`RedfinEstimateValueHeader[^>]*>.*?\$([\d,]+)`. -/
def esthLit : List Char := "RedfinEstimateValueHeader".toList

/-- Literal head of the tertiary pattern
`"sectionPreviewText":\s*"\\?\$([\d,]+)`. -/
def jsonKeyLit : List Char := "\"sectionPreviewText\":".toList

/-- The primary matcher (`abp_match`, line 35). -/
def matchAbp (html : List Char) : Option (List Char) := reSearch abpLit tagTail html

/-- The secondary matcher (`esth_match`, line 43). -/
def matchEsth (html : List Char) : Option (List Char) := reSearch esthLit tagTail html

/-- The tertiary matcher (`json_match`, line 51). -/
def matchJson (html : List Char) : Option (List Char) := reSearch jsonKeyLit jsonTail html

/-- `extract_price` (lines 29-55): the three matchers in fixed order,
first success wins, `none` when all fail. -/
def extract_price (html : List Char) : Option (List Char) :=
  match matchAbp html with
  | some p => some p
  | none =>
    match matchEsth html with
    | some p => some p
    | none => matchJson html

/-- A raw fetch response: status code, the `x-amzn-waf-action` header value
(`''` when absent), the `Content-Type` header value (`''` when absent), and
the body bytes. -/
structure Resp where
  status : Nat
  waf : List Char
  contentType : List Char
  body : List Char

/-- The blank-line separator `\r\n\r\n`. -/
def crlf2 : List Char := '\r' :: '\n' :: '\r' :: '\n' :: []

/-- The provider marker token of the selection loop (line 142). -/
def markerLit : List Char := "data-rf-test-id".toList

/-- The token `captcha`. -/
def captchaLit : List Char := "captcha".toList

/-- The token `verify`. -/
def verifyLit : List Char := "verify".toList

/-- The token `boundary=`. -/
def boundaryLit : List Char := "boundary=".toList

/-- The two dashes put in front of the boundary token (line 126). -/
def dashDash : List Char := '-' :: '-' :: []

/-- Lines 130-135: a part passes the filters when it is at least 500 bytes
long and contains `\r\n\r\n`; its decoded body is everything after the first
blank line. -/
def viable (part : List Char) : Option (List Char) :=
  if part.length < 500 then none
  else
    match findSub crlf2 part with
    | none => none
    | some i => some (part.drop (i + 4))

/-- Line 138: `"captcha" in body.lower() and "verify" in body.lower()`. -/
def hasCaptcha (body : List Char) : Bool :=
  containsSub captchaLit (lowerStr body) && containsSub verifyLit (lowerStr body)

/-- Line 142: `"data-rf-test-id" in body`. -/
def hasMarker (body : List Char) : Bool := containsSub markerLit body

/-- Result of the part-selection loop: either the captcha early return or the
final `html_content` accumulator. -/
inductive ScanResult where
  | blocked : ScanResult
  | frag : List Char → ScanResult
deriving DecidableEq

/-- The selection loop of `run_scrape` (lines 129-143): `best` is the running
`html_content`, updated when a part's body holds the marker and is strictly
longer than the current best. -/
def scanParts : List (List Char) → List Char → ScanResult
  | [], best => ScanResult.frag best
  | part :: rest, best =>
    match viable part with
    | none => scanParts rest best
    | some body =>
      if hasCaptcha body = true then ScanResult.blocked
      else if hasMarker body = true ∧ best.length < body.length then scanParts rest body
      else scanParts rest best

/-- Lines 120-125: `re.search(r'boundary=(.*)', content_type)` captures
everything after the first `boundary=` (header values hold no newline); no
occurrence is the decode failure. -/
def extractBoundary (ct : List Char) : Option (List Char) :=
  match findSub boundaryLit ct with
  | none => none
  | some i => some (ct.drop (i + boundaryLit.length))

/-- The outcome of one attempt, reifying the distinct return branches of
`run_scrape` (the Python function returns `None` on all failures). -/
inductive Outcome where
  | success : List Char → Outcome
  | blocked : Outcome
  | noContent : Outcome
  | noMatch : Outcome
  | transientError : Outcome
deriving DecidableEq

/-- The body of `run_scrape` after a successful fetch (lines 113-149):
WAF-header check, boundary extraction, part split, selection loop, empty-page
check, extraction chain. -/
def run_scrape (r : Resp) : Outcome :=
  if containsSub captchaLit (lowerStr r.waf) = true then Outcome.blocked
  else
    match extractBoundary r.contentType with
    | none => Outcome.noContent
    | some b =>
      match scanParts (splitOnSep (dashDash ++ b) r.body) [] with
      | ScanResult.blocked => Outcome.blocked
      | ScanResult.frag html =>
        if html.isEmpty then Outcome.noContent
        else
          match extract_price html with
          | some p => Outcome.success p
          | none => Outcome.noMatch

/-- The value `run_scrape` literally returns: the price on success, `None`
otherwise. -/
def toOpt : Outcome → Option (List Char)
  | Outcome.success p => some p
  | _ => none

/-- One whole attempt including the fetch: the `try` block catches every
exception (lines 109-153), so a raising fetch becomes a `TransientError`
outcome rather than a propagated exception. -/
def run_scrape_full (fr : Except String Resp) : Outcome :=
  match fr with
  | Except.error _ => Outcome.transientError
  | Except.ok r => run_scrape r

/-- The `Option` an attempt hands to the retry loop. -/
def scrapeAttempt (fr : Except String Resp) : Option (List Char) :=
  toOpt (run_scrape_full fr)

/-- The loop of `main` (lines 159-167): `i` is the index of the next attempt,
the second argument the number of attempts still allowed.  Returns how many
attempts ran and the final value; the loop breaks on the first `some`. -/
def attemptLoop {α : Type} (f : Nat → Option α) : Nat → Nat → Nat × Option α
  | _, 0 => (0, none)
  | i, Nat.succ n =>
    match f i with
    | some v => (1, some v)
    | none =>
      let p := attemptLoop f (i + 1) n
      (p.1 + 1, p.2)

/-- `main`'s retry orchestration over an injected single-attempt function:
number of attempts performed and the reported result (`none` is the terminal
`RunFailure`). -/
def mainRun {α : Type} (f : Nat → Option α) (max_retries : Nat) : Nat × Option α :=
  attemptLoop f 0 max_retries

/-- Line 177: `price_str.replace(",", "")`. -/
def stripCommas (p : List Char) : List Char := p.filter (fun c => c != ',')

/-- Value of a digit string read in base 10. -/
def digitsToNat (l : List Char) : Nat := l.foldl (fun n c => n * 10 + (c.toNat - 48)) 0

/-- Python `int(s)` on an unsigned literal: defined exactly on non-empty
all-digit strings. -/
def parsePrice (l : List Char) : Option Nat :=
  if l.isEmpty then none
  else if l.all isAsciiDigit then some (digitsToNat l) else none

/- Concrete fixtures used by witnesses and counterexamples. -/

/-- Fixture: 500-byte part whose body holds the marker, 495 bytes of body. -/
def wpart1 : List Char := 'H' :: (crlf2 ++ markerLit ++ List.replicate 480 'x')

/-- Body of `wpart1`. -/
def wbody1 : List Char := markerLit ++ List.replicate 480 'x'

/-- Fixture: 520-byte part whose body holds the marker, 515 bytes of body. -/
def wpart2 : List Char := 'H' :: (crlf2 ++ markerLit ++ List.replicate 500 'x')

/-- Body of `wpart2`. -/
def wbody2 : List Char := markerLit ++ List.replicate 500 'x'

/-- Fixture part list with two marker parts of different body lengths. -/
def wparts : List (List Char) := wpart1 :: wpart2 :: []

/-- Fixture fragment matching the primary pattern (value `1,234,567`) and the
tertiary pattern (value `9,999`) with different dollar amounts. -/
def wfrag2 : List Char :=
  "data-rf-test-id=\"abp-price\"><span>$1,234,567</span> \"sectionPreviewText\": \"$9,999".toList

/-- The primary capture inside `wfrag2`. -/
def wprice2 : List Char := "1,234,567".toList

/-- Stub attempt function that always fails. -/
def stubFail : Nat → Option (List Char) := fun _ => none

/-- Stub attempt function that first succeeds on attempt 2 (index 1). -/
def stubSecond : Nat → Option (List Char) := fun i => if i = 1 then some ('7' :: []) else none

/-- A well-formed multipart `Content-Type` with boundary token `b`. -/
def ctOK : List Char := "multipart/mixed; boundary=b".toList

/-- Fixture part (519 bytes) whose body carries the marker, the primary
pattern and price `$1,234`. -/
def cpartPrice : List Char :=
  'H' :: (crlf2 ++ abpLit ++ ('>' :: []) ++ "$1,234".toList ++ List.replicate 480 'x')

/-- Body of `cpartPrice`. -/
def cfragPrice : List Char :=
  abpLit ++ ('>' :: []) ++ "$1,234".toList ++ List.replicate 480 'x'

/-- The capture `1,234`. -/
def cprice : List Char := "1,234".toList

/-- Fixture response with HTTP status 500 and a perfectly scrapeable body. -/
def cresp6 : Resp := Resp.mk 500 [] ctOK ("--b".toList ++ cpartPrice)

/-- Fixture part (517 bytes): viable, marker-free, extractable by the
secondary pattern. -/
def cpart4 : List Char :=
  'H' :: (crlf2 ++ esthLit ++ ('>' :: []) ++ "$1,234".toList ++ List.replicate 480 'x')

/-- Body of `cpart4`. -/
def cfrag4 : List Char :=
  esthLit ++ ('>' :: []) ++ "$1,234".toList ++ List.replicate 480 'x'

/-- Multipart body splitting into three parts (`['', 'preamble', cpart4]`),
none of which contains the marker token. -/
def cbody4 : List Char := "--b".toList ++ "preamble".toList ++ "--b".toList ++ cpart4

/-- Fixture response for the missing-fallback counterexample. -/
def cresp4 : Resp := Resp.mk 200 [] ctOK cbody4

/-- Multipart body whose sole real part is a 53-byte captcha challenge. -/
def cbody5 : List Char :=
  "--b".toList ++ ('H' :: (crlf2 ++ "Please VERIFY you are human. Solve the CAPTCHA.".toList))

/-- Fixture response whose body text contains `captcha` and `verify` inside a
part smaller than 500 bytes. -/
def cresp5 : Resp := Resp.mk 200 [] ctOK cbody5

/-- Fixture part (521 bytes) whose body is a captcha challenge. -/
def cpart5w : List Char :=
  'H' :: (crlf2 ++ "please verify you are human captcha ".toList ++ List.replicate 480 'z')

/-- Body of `cpart5w`. -/
def cfrag5w : List Char :=
  "please verify you are human captcha ".toList ++ List.replicate 480 'z'

/-- Fixture response with a filter-passing captcha part. -/
def cresp5w : Resp := Resp.mk 200 [] ctOK ("--b".toList ++ cpart5w)

/-- Fragment where the primary capture is the bare separator `,`. -/
def cfrag7a : List Char := "data-rf-test-id=\"abp-price\">$,x".toList

/-- Fragment where the primary capture is `0`. -/
def cfrag7b : List Char := "data-rf-test-id=\"abp-price\">$0!".toList

/-- A `Content-Type` whose `boundary=` parameter is present but empty. -/
def ct8 : List Char := "multipart/form-data; boundary=".toList

/-- Fixture response with an empty boundary token, split on the bare `--`. -/
def cresp8 : Resp := Resp.mk 200 [] ct8 ("--".toList ++ cpartPrice)

/-- A `Content-Type` without any `boundary=` parameter. -/
def ctNone : List Char := "text/html".toList

/-- Fixture response with no boundary parameter at all. -/
def respNB : Resp := Resp.mk 200 [] ctNone []

/-- Fetch sequence: first attempt has no boundary, later attempts succeed. -/
def cfetch8 : Nat → Resp := fun i => if i = 0 then respNB else cresp6

/-- A fetch error message. -/
def errMsg : String := "connection refused"

/-- Fetch stub that raises on every attempt. -/
def cfetch9 : Nat → Except String Resp := fun _ => Except.error errMsg

/-- The separator the fixtures split on (`--` + boundary token `b`). -/
def sepB : List Char := "--b".toList

/-- Executable check: the part either fails the filters or its body is free
of the captcha tokens. -/
def viableNoCaptcha (q : List Char) : Bool :=
  match viable q with
  | none => true
  | some c => !hasCaptcha c

/-- Executable check: the part either fails the filters or its body does not
contain the provider marker token. -/
def viableNoMarker (q : List Char) : Bool :=
  match viable q with
  | none => true
  | some c => !hasMarker c

/- Helper lemmas about the string primitives. -/

theorem takeWhilePre (p : Char → Bool) (l : List Char) :
    (l.takeWhile p).isPrefixOf l = true := by
  induction l with
  | nil => rfl
  | cons a l ih =>
    cases h : p a with
    | true => simp [List.takeWhile_cons, h, List.isPrefixOf, ih]
    | false => simp [List.takeWhile_cons, h, List.isPrefixOf]

theorem containsSub_cons (pat : List Char) (c : Char) (rest : List Char)
    (h : containsSub pat rest = true) : containsSub pat (c :: rest) = true := by
  simp [containsSub, h]

theorem containsSub_of_pre (pat s : List Char) (h : pat.isPrefixOf s = true) :
    containsSub pat s = true := by
  cases s with
  | nil =>
    cases pat with
    | nil => rfl
    | cons a t => simp [List.isPrefixOf] at h
  | cons c rest => simp [containsSub, h]

theorem containsSub_append_left (u pat t : List Char)
    (h : containsSub pat t = true) : containsSub pat (u ++ t) = true := by
  induction u with
  | nil => simpa using h
  | cons c u ih => exact containsSub_cons pat c (u ++ t) ih

/- Specifications of the capture primitives: every successful capture is a
non-empty run of `[0-9,]` characters found right after a `$` in the scanned
text. -/

theorem capDigits_spec (t p : List Char) (h : capDigits t = some p) :
    p ≠ [] ∧ (∀ c ∈ p, isDigitComma c = true) ∧ p.isPrefixOf t = true := by
  simp only [capDigits] at h
  split at h
  · exact absurd h (by simp)
  · rename_i hne
    obtain rfl : t.takeWhile isDigitComma = p := by injection h
    refine ⟨by simpa [List.isEmpty_iff] using hne, ?_, takeWhilePre isDigitComma t⟩
    intro c hc
    exact List.mem_takeWhile_imp hc

theorem pre_cons (a : Char) (as bs : List Char) (h : as.isPrefixOf bs = true) :
    (a :: as).isPrefixOf (a :: bs) = true := by
  show ((a == a) && as.isPrefixOf bs) = true
  rw [h, Bool.and_true, beq_self_eq_true]

theorem dollarCapture_spec (s p : List Char) (h : dollarCapture s = some p) :
    p ≠ [] ∧ (∀ c ∈ p, isDigitComma c = true) ∧ containsSub ('$' :: p) s = true := by
  induction s with
  | nil => simp [dollarCapture] at h
  | cons c rest ih =>
    by_cases hc : c = '$'
    · subst hc
      rw [dollarCapture, if_pos rfl] at h
      cases hcap : capDigits rest with
      | some cap =>
        rw [hcap] at h
        replace h : some cap = some p := h
        have hcp : cap = p := by injection h
        rw [← hcp]
        obtain ⟨h1, h2, h3⟩ := capDigits_spec rest cap hcap
        exact ⟨h1, h2, containsSub_of_pre _ _ (pre_cons '$' cap rest h3)⟩
      | none =>
        rw [hcap] at h
        replace h : dollarCapture rest = some p := h
        obtain ⟨h1, h2, h3⟩ := ih h
        exact ⟨h1, h2, containsSub_cons _ _ _ h3⟩
    · rw [dollarCapture, if_neg hc] at h
      obtain ⟨h1, h2, h3⟩ := ih h
      exact ⟨h1, h2, containsSub_cons _ _ _ h3⟩

theorem tagTail_spec (s p : List Char) (h : tagTail s = some p) :
    p ≠ [] ∧ (∀ c ∈ p, isDigitComma c = true) ∧ containsSub ('$' :: p) s = true := by
  rw [tagTail] at h
  cases hd : s.dropWhile (fun c => c != '>') with
  | nil => rw [hd] at h; exact absurd h (by simp)
  | cons x t =>
    rw [hd] at h
    obtain ⟨h1, h2, h3⟩ := dollarCapture_spec t p h
    refine ⟨h1, h2, ?_⟩
    have h4 : containsSub ('$' :: p) (s.dropWhile (fun c => c != '>')) = true := by
      rw [hd]; exact containsSub_cons _ _ _ h3
    have h5 := containsSub_append_left (s.takeWhile (fun c => c != '>')) _ _ h4
    rwa [List.takeWhile_append_dropWhile] at h5

theorem jsonDollarEsc_spec (r p : List Char) (h : jsonDollarEsc r = some p) :
    p ≠ [] ∧ (∀ c ∈ p, isDigitComma c = true) ∧ containsSub ('$' :: p) r = true := by
  cases r with
  | nil => simp [jsonDollarEsc] at h
  | cons d t =>
    rw [jsonDollarEsc] at h
    by_cases hd : d = '$'
    · subst hd
      rw [if_pos rfl] at h
      obtain ⟨h1, h2, h3⟩ := capDigits_spec t p h
      exact ⟨h1, h2, containsSub_of_pre _ _ (pre_cons '$' p t h3)⟩
    · rw [if_neg hd] at h; exact absurd h (by simp)

theorem jsonDollar_spec (r p : List Char) (h : jsonDollar r = some p) :
    p ≠ [] ∧ (∀ c ∈ p, isDigitComma c = true) ∧ containsSub ('$' :: p) r = true := by
  cases r with
  | nil => simp [jsonDollar] at h
  | cons c r =>
    rw [jsonDollar] at h
    by_cases hc : c = '\\'
    · rw [if_pos hc] at h
      obtain ⟨h1, h2, h3⟩ := jsonDollarEsc_spec r p h
      exact ⟨h1, h2, containsSub_cons _ _ _ h3⟩
    · rw [if_neg hc] at h
      by_cases hc2 : c = '$'
      · subst hc2
        rw [if_pos rfl] at h
        obtain ⟨h1, h2, h3⟩ := capDigits_spec r p h
        exact ⟨h1, h2, containsSub_of_pre _ _ (pre_cons '$' p r h3)⟩
      · rw [if_neg hc2] at h; exact absurd h (by simp)

theorem jsonTail_spec (s p : List Char) (h : jsonTail s = some p) :
    p ≠ [] ∧ (∀ c ∈ p, isDigitComma c = true) ∧ containsSub ('$' :: p) s = true := by
  rw [jsonTail] at h
  cases hd : s.dropWhile isPySpace with
  | nil => rw [hd] at h; exact absurd h (by simp)
  | cons x t =>
    rw [hd] at h
    replace h : (if x = '"' then jsonDollar t else none) = some p := h
    by_cases hx : x = '"'
    · rw [if_pos hx] at h
      obtain ⟨h1, h2, h3⟩ := jsonDollar_spec t p h
      refine ⟨h1, h2, ?_⟩
      have h4 : containsSub ('$' :: p) (s.dropWhile isPySpace) = true := by
        rw [hd]; exact containsSub_cons _ _ _ h3
      have h5 := containsSub_append_left (s.takeWhile isPySpace) _ _ h4
      rwa [List.takeWhile_append_dropWhile] at h5
    · rw [if_neg hx] at h; exact absurd h (by simp)

theorem reSearch_spec (lit : List Char) (k : List Char → Option (List Char))
    (s r : List Char) (h : reSearch lit k s = some r) :
    ∃ u t, u ++ t = s ∧ k t = some r := by
  induction s with
  | nil =>
    rw [reSearch] at h
    by_cases he : lit.isEmpty = true
    · rw [if_pos he] at h; exact ⟨[], [], rfl, h⟩
    · rw [if_neg he] at h; exact absurd h (by simp)
  | cons c rest ih =>
    rw [reSearch] at h
    by_cases hp : lit.isPrefixOf (c :: rest) = true
    · rw [if_pos hp] at h
      cases hk : k ((c :: rest).drop lit.length) with
      | some r2 =>
        rw [hk] at h
        obtain rfl : r2 = r := by injection h
        exact ⟨(c :: rest).take lit.length, (c :: rest).drop lit.length,
          List.take_append_drop _ _, hk⟩
      | none =>
        rw [hk] at h
        obtain ⟨u, t, hut, hkt⟩ := ih h
        exact ⟨c :: u, t, by rw [List.cons_append, hut], hkt⟩
    · rw [if_neg hp] at h
      obtain ⟨u, t, hut, hkt⟩ := ih h
      exact ⟨c :: u, t, by rw [List.cons_append, hut], hkt⟩

/-- Shape of every successful extraction: a non-empty `[0-9,]` run appearing
right after a `$` in the fragment. -/
theorem extractSpec (html p : List Char) (h : extract_price html = some p) :
    p ≠ [] ∧ (∀ c ∈ p, isDigitComma c = true) ∧ containsSub ('$' :: p) html = true := by
  rw [extract_price] at h
  cases ha : matchAbp html with
  | some q =>
    rw [ha] at h
    replace h : some q = some p := h
    have hqp : q = p := by injection h
    rw [← hqp]
    obtain ⟨u, t, hut, hkt⟩ := reSearch_spec abpLit tagTail html q ha
    obtain ⟨h1, h2, h3⟩ := tagTail_spec t q hkt
    exact ⟨h1, h2, by rw [← hut]; exact containsSub_append_left u _ t h3⟩
  | none =>
    rw [ha] at h
    cases he : matchEsth html with
    | some q =>
      rw [he] at h
      replace h : some q = some p := h
      have hqp : q = p := by injection h
      rw [← hqp]
      obtain ⟨u, t, hut, hkt⟩ := reSearch_spec esthLit tagTail html q he
      obtain ⟨h1, h2, h3⟩ := tagTail_spec t q hkt
      exact ⟨h1, h2, by rw [← hut]; exact containsSub_append_left u _ t h3⟩
    | none =>
      rw [he] at h
      replace h : matchJson html = some p := h
      obtain ⟨u, t, hut, hkt⟩ := reSearch_spec jsonKeyLit jsonTail html p h
      obtain ⟨h1, h2, h3⟩ := jsonTail_spec t p hkt
      exact ⟨h1, h2, by rw [← hut]; exact containsSub_append_left u _ t h3⟩

/- The part-selection loop. -/

theorem viable_some_len (q c : List Char) (h : viable q = some c) : 500 ≤ q.length := by
  rw [viable] at h
  by_cases hl : q.length < 500
  · rw [if_pos hl] at h; exact absurd h (by simp)
  · omega

/-- Full characterisation of the selection loop when it returns a fragment:
the running best never shrinks, and the result is either the initial best
(no part beat it) or the body of some filter-passing marker part that is
maximal among all such bodies, every strictly earlier one being strictly
shorter. -/
theorem scanParts_spec (parts : List (List Char)) (best h : List Char)
    (hs : scanParts parts best = ScanResult.frag h) :
    best.length ≤ h.length ∧
    ((h = best ∧ ∀ q ∈ parts, ∀ c, viable q = some c → hasMarker c = true →
        c.length ≤ best.length) ∨
     (best.length < h.length ∧ ∃ pre p post,
        parts = pre ++ p :: post ∧ viable p = some h ∧ hasMarker h = true ∧
        (∀ q ∈ parts, ∀ c, viable q = some c → hasMarker c = true → c.length ≤ h.length) ∧
        (∀ q ∈ pre, ∀ c, viable q = some c → hasMarker c = true → c.length < h.length))) := by
  induction parts generalizing best with
  | nil =>
    replace hs : ScanResult.frag best = ScanResult.frag h := hs
    have hb : best = h := by injection hs
    constructor
    · rw [hb]
    · left
      refine ⟨hb.symm, ?_⟩
      intro q hq
      exact absurd hq (List.not_mem_nil q)
  | cons part rest ih =>
    rw [scanParts] at hs
    cases hv : viable part with
    | none =>
      rw [hv] at hs
      replace hs : scanParts rest best = ScanResult.frag h := hs
      obtain ⟨hle, hcase⟩ := ih best hs
      refine ⟨hle, ?_⟩
      rcases hcase with ⟨heq, hall⟩ | ⟨hlt, pre, p, post, hdec, hvp, hmp, hall, hstrict⟩
      · left
        refine ⟨heq, ?_⟩
        intro q hq c hvq hm
        rcases List.mem_cons.mp hq with hq1 | hq2
        · rw [hq1, hv] at hvq; exact absurd hvq (by simp)
        · exact hall q hq2 c hvq hm
      · right
        refine ⟨hlt, part :: pre, p, post, by rw [hdec, List.cons_append], hvp, hmp, ?_, ?_⟩
        · intro q hq c hvq hm
          rcases List.mem_cons.mp hq with hq1 | hq2
          · rw [hq1, hv] at hvq; exact absurd hvq (by simp)
          · exact hall q hq2 c hvq hm
        · intro q hq c hvq hm
          rcases List.mem_cons.mp hq with hq1 | hq2
          · rw [hq1, hv] at hvq; exact absurd hvq (by simp)
          · exact hstrict q hq2 c hvq hm
    | some body =>
      rw [hv] at hs
      replace hs : (if hasCaptcha body = true then ScanResult.blocked
        else if hasMarker body = true ∧ best.length < body.length then scanParts rest body
        else scanParts rest best) = ScanResult.frag h := hs
      by_cases hcap : hasCaptcha body = true
      · rw [if_pos hcap] at hs; exact absurd hs (by simp)
      · rw [if_neg hcap] at hs
        by_cases hcond : hasMarker body = true ∧ best.length < body.length
        · rw [if_pos hcond] at hs
          obtain ⟨hle, hcase⟩ := ih body hs
          have hbh : best.length < h.length := Nat.lt_of_lt_of_le hcond.2 hle
          refine ⟨Nat.le_of_lt hbh, Or.inr ⟨hbh, ?_⟩⟩
          rcases hcase with ⟨heq, hall⟩ | ⟨hlt, pre, p, post, hdec, hvp, hmp, hall, hstrict⟩
          · refine ⟨[], part, rest, by rw [List.nil_append], ?_, ?_, ?_, ?_⟩
            · rw [heq]; exact hv
            · rw [heq]; exact hcond.1
            · intro q hq c hvq hm
              rcases List.mem_cons.mp hq with hq1 | hq2
              · rw [hq1, hv] at hvq
                replace hvq : some body = some c := hvq
                have hbc : body = c := by injection hvq
                rw [← hbc, heq]
              · rw [heq]
                exact hall q hq2 c hvq hm
            · intro q hq
              exact absurd hq (List.not_mem_nil q)
          · refine ⟨part :: pre, p, post, by rw [hdec, List.cons_append], hvp, hmp, ?_, ?_⟩
            · intro q hq c hvq hm
              rcases List.mem_cons.mp hq with hq1 | hq2
              · rw [hq1, hv] at hvq
                replace hvq : some body = some c := hvq
                have hbc : body = c := by injection hvq
                rw [← hbc]
                exact Nat.le_of_lt hlt
              · exact hall q hq2 c hvq hm
            · intro q hq c hvq hm
              rcases List.mem_cons.mp hq with hq1 | hq2
              · rw [hq1, hv] at hvq
                replace hvq : some body = some c := hvq
                have hbc : body = c := by injection hvq
                rw [← hbc]
                exact hlt
              · exact hstrict q hq2 c hvq hm
        · rw [if_neg hcond] at hs
          obtain ⟨hle, hcase⟩ := ih best hs
          have hmono : hasMarker body = true → body.length ≤ best.length := by
            intro hmb
            rcases Nat.lt_or_ge best.length body.length with hlt2 | hge
            · exact absurd ⟨hmb, hlt2⟩ hcond
            · exact hge
          refine ⟨hle, ?_⟩
          rcases hcase with ⟨heq, hall⟩ | ⟨hlt, pre, p, post, hdec, hvp, hmp, hall, hstrict⟩
          · left
            refine ⟨heq, ?_⟩
            intro q hq c hvq hm
            rcases List.mem_cons.mp hq with hq1 | hq2
            · rw [hq1, hv] at hvq
              replace hvq : some body = some c := hvq
              have hbc : body = c := by injection hvq
              rw [← hbc] at hm ⊢
              exact hmono hm
            · exact hall q hq2 c hvq hm
          · right
            refine ⟨hlt, part :: pre, p, post, by rw [hdec, List.cons_append], hvp, hmp, ?_, ?_⟩
            · intro q hq c hvq hm
              rcases List.mem_cons.mp hq with hq1 | hq2
              · rw [hq1, hv] at hvq
                replace hvq : some body = some c := hvq
                have hbc : body = c := by injection hvq
                rw [← hbc] at hm ⊢
                exact Nat.le_trans (hmono hm) hle
              · exact hall q hq2 c hvq hm
            · intro q hq c hvq hm
              rcases List.mem_cons.mp hq with hq1 | hq2
              · rw [hq1, hv] at hvq
                replace hvq : some body = some c := hvq
                have hbc : body = c := by injection hvq
                rw [← hbc] at hm ⊢
                exact Nat.lt_of_le_of_lt (hmono hm) hlt
              · exact hstrict q hq2 c hvq hm

/-- When every filter-passing body is captcha-free and marker-free, the loop
keeps its initial accumulator: there is no positional fallback of any kind. -/
theorem scanParts_skip (parts : List (List Char))
    (hnc : ∀ q ∈ parts, ∀ c, viable q = some c → hasCaptcha c = false)
    (hnm : ∀ q ∈ parts, ∀ c, viable q = some c → hasMarker c = false) :
    ∀ best, scanParts parts best = ScanResult.frag best := by
  induction parts with
  | nil => intro best; rfl
  | cons part rest ih =>
    intro best
    rw [scanParts]
    cases hv : viable part with
    | none =>
      exact ih (fun q hq => hnc q (List.mem_cons_of_mem part hq))
        (fun q hq => hnm q (List.mem_cons_of_mem part hq)) best
    | some body =>
      have hcf : hasCaptcha body = false := hnc part (List.mem_cons_self part rest) body hv
      have hmf : hasMarker body = false := hnm part (List.mem_cons_self part rest) body hv
      show (if hasCaptcha body = true then ScanResult.blocked
        else if hasMarker body = true ∧ best.length < body.length then scanParts rest body
        else scanParts rest best) = ScanResult.frag best
      rw [if_neg (by simp [hcf]), if_neg (by simp [hmf])]
      exact ih (fun q hq => hnc q (List.mem_cons_of_mem part hq))
        (fun q hq => hnm q (List.mem_cons_of_mem part hq)) best

/-- A single filter-passing part whose body mentions both captcha tokens
makes the whole loop return the blocked result, whatever the accumulator. -/
theorem scanParts_captcha (parts : List (List Char)) (part c : List Char)
    (hv : viable part = some c) (hc : hasCaptcha c = true) :
    ∀ best, part ∈ parts → scanParts parts best = ScanResult.blocked := by
  induction parts with
  | nil =>
    intro best hp
    exact absurd hp (List.not_mem_nil part)
  | cons q rest ih =>
    intro best hp
    rw [scanParts]
    cases hvq : viable q with
    | none =>
      rcases List.mem_cons.mp hp with h1 | h2
      · exfalso
        rw [h1, hvq] at hv
        exact absurd hv (by simp)
      · exact ih best h2
    | some body =>
      show (if hasCaptcha body = true then ScanResult.blocked
        else if hasMarker body = true ∧ best.length < body.length then scanParts rest body
        else scanParts rest best) = ScanResult.blocked
      by_cases hcb : hasCaptcha body = true
      · rw [if_pos hcb]
      · rw [if_neg hcb]
        have h2 : part ∈ rest := by
          rcases List.mem_cons.mp hp with h1 | h2
          · exfalso
            rw [h1, hvq] at hv
            replace hv : some body = some c := hv
            have hbc : body = c := by injection hv
            rw [hbc] at hcb
            exact hcb hc
          · exact h2
        by_cases hcond : hasMarker body = true ∧ best.length < body.length
        · rw [if_pos hcond]; exact ih body h2
        · rw [if_neg hcond]; exact ih best h2

/- The retry loop. -/

theorem attemptLoop_all_none {α : Type} (f : Nat → Option α) :
    ∀ (n i : Nat), (∀ j, j < n → f (i + j) = none) → attemptLoop f i n = (n, none) := by
  intro n
  induction n with
  | zero => intro i h; rfl
  | succ n ih =>
    intro i h
    have h0 : f i = none := by simpa using h 0 (Nat.succ_pos n)
    have hr := ih (i + 1) (fun j hj => by
      have hx := h (j + 1) (by omega)
      rw [show i + (j + 1) = i + 1 + j by omega] at hx
      exact hx)
    rw [attemptLoop, h0]
    show ((attemptLoop f (i + 1) n).1 + 1, (attemptLoop f (i + 1) n).2) = (n + 1, none)
    rw [hr]

theorem attemptLoop_first {α : Type} (f : Nat → Option α) (v : α) :
    ∀ (k n i : Nat), f (i + k) = some v → (∀ j, j < k → f (i + j) = none) → k < n →
      attemptLoop f i n = (k + 1, some v) := by
  intro k
  induction k with
  | zero =>
    intro n i hk hb hn
    cases n with
    | zero => omega
    | succ n =>
      have h0 : f i = some v := by simpa using hk
      rw [attemptLoop, h0]
  | succ k ih =>
    intro n i hk hb hn
    cases n with
    | zero => omega
    | succ n =>
      have h0 : f i = none := by simpa using hb 0 (Nat.succ_pos k)
      have hr := ih n (i + 1)
        (by rw [show i + 1 + k = i + (k + 1) by omega]; exact hk)
        (fun j hj => by
          rw [show i + 1 + j = i + (j + 1) by omega]
          exact hb (j + 1) (by omega))
        (by omega)
      rw [attemptLoop, h0]
      show ((attemptLoop f (i + 1) n).1 + 1, (attemptLoop f (i + 1) n).2) = (k + 1 + 1, some v)
      rw [hr]

theorem attemptLoop_none_iff {α : Type} (f : Nat → Option α) :
    ∀ (n i : Nat), (attemptLoop f i n).2 = none ↔ ∀ j, j < n → f (i + j) = none := by
  intro n
  induction n with
  | zero =>
    intro i
    constructor
    · intro _ j hj; omega
    · intro _; rfl
  | succ n ih =>
    intro i
    cases hf : f i with
    | some v =>
      constructor
      · intro habs
        exfalso
        rw [attemptLoop, hf] at habs
        replace habs : (some v : Option α) = none := habs
        exact Option.noConfusion habs
      · intro hall
        exfalso
        have hx := hall 0 (Nat.succ_pos n)
        rw [Nat.add_zero, hf] at hx
        exact Option.noConfusion hx
    | none =>
      rw [attemptLoop, hf]
      have hred : ((match (none : Option α) with
          | some v => ((1 : Nat), some v)
          | none => ((attemptLoop f (i + 1) n).1 + 1, (attemptLoop f (i + 1) n).2)) :
            Nat × Option α).2 = (attemptLoop f (i + 1) n).2 := rfl
      rw [hred, ih (i + 1)]
      constructor
      · intro hall j hj
        cases j with
        | zero => rw [Nat.add_zero]; exact hf
        | succ j =>
          have hx := hall j (by omega)
          rw [show i + 1 + j = i + (j + 1) by omega] at hx
          exact hx
      · intro hall j hj
        have hx := hall (j + 1) (by omega)
        rw [show i + (j + 1) = i + 1 + j by omega] at hx
        exact hx

/- Claim theorems. -/

/-- Claim C1: whenever the decoder's selection loop returns a non-empty
fragment, that fragment is the decoded body of a filter-passing part (hence
at least 500 bytes long) containing the provider marker token, its body is
maximal among all filter-passing marker bodies, and every part encountered
strictly before the selected one has a strictly shorter marker body — so on
an exact length tie the first-encountered part wins, and every part below
the 500-byte minimum is excluded from selection. -/
theorem decoder_selects_longest_marker_part (parts : List (List Char)) (h : List Char)
    (hs : scanParts parts [] = ScanResult.frag h) (hne : h ≠ []) :
    ∃ pre p post, parts = pre ++ p :: post ∧ 500 ≤ p.length ∧ viable p = some h ∧
      hasMarker h = true ∧
      (∀ q ∈ parts, ∀ c, viable q = some c → hasMarker c = true → c.length ≤ h.length) ∧
      (∀ q ∈ pre, ∀ c, viable q = some c → hasMarker c = true → c.length < h.length) := by
  obtain ⟨hle, hcase⟩ := scanParts_spec parts [] h hs
  rcases hcase with ⟨heq, hall⟩ | ⟨hlt, pre, p, post, hdec, hvp, hmp, hall, hstrict⟩
  · exact absurd heq hne
  · exact ⟨pre, p, post, hdec, viable_some_len p h hvp, hvp, hmp, hall, hstrict⟩

set_option maxRecDepth 8000 in
theorem decoder_selects_longest_marker_part_witness :
    ∃ pre p post, wparts = pre ++ p :: post ∧ 500 ≤ p.length ∧ viable p = some wbody2 ∧
      hasMarker wbody2 = true ∧
      (∀ q ∈ wparts, ∀ c, viable q = some c → hasMarker c = true → c.length ≤ wbody2.length) ∧
      (∀ q ∈ pre, ∀ c, viable q = some c → hasMarker c = true → c.length < wbody2.length) :=
  decoder_selects_longest_marker_part wparts wbody2 (by decide) (by decide)

/-- Claim C2: the price extractor applies the primary, secondary and tertiary
matchers in that fixed order and returns the first success — in particular a
primary success is returned even when the tertiary matcher would capture a
different value — and, being a pure function, repeated calls on the same
fragment return the same result. -/
theorem extract_priority_order (html p : List Char) :
    (matchAbp html = some p → extract_price html = some p) ∧
    (matchAbp html = none → matchEsth html = some p → extract_price html = some p) ∧
    (matchAbp html = none → matchEsth html = none → extract_price html = matchJson html) ∧
    extract_price html = extract_price html := by
  refine ⟨?_, ?_, ?_, rfl⟩
  · intro h1
    rw [extract_price, h1]
  · intro h1 h2
    rw [extract_price, h1, h2]
  · intro h1 h2
    rw [extract_price, h1, h2]

theorem extract_priority_order_witness : extract_price wfrag2 = some wprice2 :=
  (extract_priority_order wfrag2 wprice2).1 (by decide)

/-- Claim C3: against an injected single-attempt function, the retry loop
performs exactly `max_retries` attempts and reports the terminal failure when
every attempt fails, and performs exactly `k + 1` attempts returning the
success value when the function first succeeds on 0-based attempt `k`. -/
theorem retry_bound_exact {α : Type} (f : Nat → Option α) (m k : Nat) (v : α) :
    ((∀ i, i < m → f i = none) → mainRun f m = (m, none)) ∧
    (k < m → f k = some v → (∀ i, i < k → f i = none) → mainRun f m = (k + 1, some v)) := by
  constructor
  · intro hall
    exact attemptLoop_all_none f m 0 (fun j hj => by simpa using hall j hj)
  · intro hkm hfk hb
    exact attemptLoop_first f v k m 0 (by simpa using hfk)
      (fun j hj => by simpa using hb j hj) hkm

theorem retry_bound_exact_witness :
    mainRun stubFail 3 = (3, none) ∧ mainRun stubSecond 3 = (2, some ('7' :: [])) := by
  constructor
  · exact (retry_bound_exact stubFail 3 0 ('7' :: [])).1 (by decide)
  · exact (retry_bound_exact stubSecond 3 1 ('7' :: [])).2 (by decide) (by decide) (by decide)

/-- Claim C7 counterexample: the primary extractor can return the bare
separator `,` (whose separator-stripped form is empty and does not parse at
all) and can return `0` (which parses but is not positive). -/
theorem capture_not_always_positive_cex :
    extract_price cfrag7a = some (',' :: []) ∧ stripCommas (',' :: []) = [] ∧
    parsePrice (stripCommas (',' :: [])) = none ∧
    extract_price cfrag7b = some ('0' :: []) ∧
    digitsToNat (stripCommas ('0' :: [])) = 0 := by decide

/-- Claim C7 (amended): every value returned by an extractor consists of
digits and commas only, so its separator-stripped form is all digits and,
whenever it is non-empty, parses as a non-negative integer. -/
theorem stripped_capture_digits (html p : List Char) (h : extract_price html = some p) :
    (stripCommas p).all isAsciiDigit = true ∧
    (stripCommas p ≠ [] → parsePrice (stripCommas p) = some (digitsToNat (stripCommas p))) := by
  obtain ⟨-, hmem, -⟩ := extractSpec html p h
  have hall : (stripCommas p).all isAsciiDigit = true := by
    rw [List.all_eq_true]
    intro c hc
    rw [stripCommas] at hc
    obtain ⟨hcp, hne⟩ := List.mem_filter.mp hc
    have hdc := hmem c hcp
    rw [isDigitComma] at hdc
    rcases (Bool.or_eq_true _ _).mp hdc with hdig | hcomma
    · exact hdig
    · exfalso
      rw [beq_iff_eq] at hcomma
      rw [hcomma] at hne
      simp at hne
  refine ⟨hall, fun hne2 => ?_⟩
  have hnotempty : ¬((stripCommas p).isEmpty = true) := by
    intro hempty
    rw [List.isEmpty_iff] at hempty
    exact hne2 hempty
  rw [parsePrice, if_neg hnotempty, if_pos hall]

theorem stripped_capture_digits_witness :
    parsePrice (stripCommas wprice2) = some (digitsToNat (stripCommas wprice2)) :=
  (stripped_capture_digits wfrag2 wprice2 (by decide)).2 (by decide)

/-- Claim C9: an attempt whose fetch raises is converted into a failed
attempt (never a propagated exception), and the retry loop reports the
terminal failure precisely when every one of its attempts failed — no other
failure escapes to the caller. -/
theorem no_exception_escapes (fetch : Nat → Except String Resp) (m : Nat) :
    (∀ i e, fetch i = Except.error e → scrapeAttempt (fetch i) = none) ∧
    ((mainRun (fun i => scrapeAttempt (fetch i)) m).2 = none ↔
      ∀ i, i < m → scrapeAttempt (fetch i) = none) := by
  constructor
  · intro i e he
    rw [he]
    rfl
  · have hx := attemptLoop_none_iff (fun i => scrapeAttempt (fetch i)) m 0
    rw [mainRun]
    constructor
    · intro h1 i hi
      simpa using hx.mp h1 i hi
    · intro h2
      exact hx.mpr (fun j hj => by simpa using h2 j hj)

theorem no_exception_escapes_witness :
    (mainRun (fun i => scrapeAttempt (cfetch9 i)) 3).2 = none :=
  (no_exception_escapes cfetch9 3).2.mpr (by decide)

/-- Claim C10: every value the extractor returns is a non-empty string of
decimal digits and commas, and it occurs in the fragment immediately preceded
by a dollar sign (in the escaped tertiary case `\$`, the `$` still
immediately precedes the captured run). -/
theorem extracted_price_shape (html p : List Char) (h : extract_price html = some p) :
    p ≠ [] ∧ (∀ c ∈ p, isDigitComma c = true) ∧ containsSub ('$' :: p) html = true :=
  extractSpec html p h

theorem extracted_price_shape_witness : containsSub ('$' :: wprice2) wfrag2 = true :=
  (extracted_price_shape wfrag2 wprice2 (by decide)).2.2

theorem viableNoCaptcha_spec (q : List Char) (h : viableNoCaptcha q = true) :
    ∀ c, viable q = some c → hasCaptcha c = false := by
  intro c hc
  rw [viableNoCaptcha, hc] at h
  simpa using h

theorem viableNoMarker_spec (q : List Char) (h : viableNoMarker q = true) :
    ∀ c, viable q = some c → hasMarker c = false := by
  intro c hc
  rw [viableNoMarker, hc] at h
  simpa using h

set_option maxRecDepth 8000 in
/-- Claim C4 counterexample: a response splitting into three parts, the third
of which (index 2) is filter-passing and extractable, but with no part
containing the marker token: the decoder signals NoContent rather than
falling back to the third part. -/
theorem no_third_part_fallback_cex :
    (splitOnSep sepB cbody4).length = 3 ∧
    (splitOnSep sepB cbody4)[2]? = some cpart4 ∧
    viable cpart4 = some cfrag4 ∧
    extract_price cfrag4 = some cprice ∧
    (∀ q ∈ splitOnSep sepB cbody4, viableNoMarker q = true) ∧
    run_scrape cresp4 = Outcome.noContent := by decide

/-- Claim C4 (amended): when no filter-passing part's body contains the
marker token (and none is a captcha page), the decoder signals NoContent no
matter how many parts exist — there is no fallback to the part at index 2. -/
theorem no_marker_yields_noContent (r : Resp) (b : List Char)
    (hw : containsSub captchaLit (lowerStr r.waf) = false)
    (hb : extractBoundary r.contentType = some b)
    (hnc : ∀ q ∈ splitOnSep (dashDash ++ b) r.body, viableNoCaptcha q = true)
    (hnm : ∀ q ∈ splitOnSep (dashDash ++ b) r.body, viableNoMarker q = true) :
    run_scrape r = Outcome.noContent := by
  have hscan := scanParts_skip (splitOnSep (dashDash ++ b) r.body)
    (fun q hq => viableNoCaptcha_spec q (hnc q hq))
    (fun q hq => viableNoMarker_spec q (hnm q hq)) []
  rw [run_scrape, if_neg (by simp [hw]), hb]
  show (match scanParts (splitOnSep (dashDash ++ b) r.body) [] with
    | ScanResult.blocked => Outcome.blocked
    | ScanResult.frag html =>
      if html.isEmpty then Outcome.noContent
      else
        match extract_price html with
        | some p => Outcome.success p
        | none => Outcome.noMatch) = Outcome.noContent
  rw [hscan]
  rfl

set_option maxRecDepth 8000 in
theorem no_marker_yields_noContent_witness : run_scrape cresp4 = Outcome.noContent :=
  no_marker_yields_noContent cresp4 ('b' :: []) (by decide) (by decide) (by decide) (by decide)

/-- Claim C5 counterexample: a response whose body text contains both
`captcha` and `verify` case-insensitively, but inside a part shorter than
500 bytes: the part is skipped by the size filter, no captcha check ever
sees it, and the attempt ends in NoContent, not Blocked. -/
theorem small_captcha_part_not_blocked_cex :
    containsSub captchaLit (lowerStr cbody5) = true ∧
    containsSub verifyLit (lowerStr cbody5) = true ∧
    run_scrape cresp5 = Outcome.noContent ∧
    Outcome.noContent ≠ Outcome.blocked := by decide

/-- Claim C5 (amended): when some filter-passing part's decoded body contains
both `captcha` and `verify` case-insensitively, the attempt is classified as
Blocked, and in particular no price extraction result is ever produced. -/
theorem captcha_part_blocks (r : Resp) (b part c : List Char)
    (hw : containsSub captchaLit (lowerStr r.waf) = false)
    (hb : extractBoundary r.contentType = some b)
    (hp : part ∈ splitOnSep (dashDash ++ b) r.body)
    (hv : viable part = some c)
    (hc : hasCaptcha c = true) :
    run_scrape r = Outcome.blocked ∧ ∀ p, run_scrape r ≠ Outcome.success p := by
  have hscan := scanParts_captcha (splitOnSep (dashDash ++ b) r.body) part c hv hc [] hp
  have h1 : run_scrape r = Outcome.blocked := by
    rw [run_scrape, if_neg (by simp [hw]), hb]
    show (match scanParts (splitOnSep (dashDash ++ b) r.body) [] with
      | ScanResult.blocked => Outcome.blocked
      | ScanResult.frag html =>
        if html.isEmpty then Outcome.noContent
        else
          match extract_price html with
          | some p => Outcome.success p
          | none => Outcome.noMatch) = Outcome.blocked
    rw [hscan]
  refine ⟨h1, fun p hp2 => ?_⟩
  rw [h1] at hp2
  exact Outcome.noConfusion hp2

set_option maxRecDepth 8000 in
theorem captcha_part_blocks_witness : run_scrape cresp5w = Outcome.blocked :=
  (captcha_part_blocks cresp5w ('b' :: []) cpart5w cfrag5w (by decide) (by decide)
    (by decide) (by decide) (by decide)).1

set_option maxRecDepth 8000 in
/-- Claim C6 counterexample: a response with HTTP status 500 is decoded and
extracted exactly like a 200 response — the attempt is a success, not a
transient error. -/
theorem non200_not_transient_cex :
    cresp6.status = 500 ∧ cresp6.status ≠ 200 ∧
    run_scrape cresp6 = Outcome.success cprice ∧
    Outcome.success cprice ≠ Outcome.transientError := by decide

/-- Claim C6 (amended): the attempt never inspects the HTTP status code; the
outcome of `run_scrape` is invariant under changing the status field. -/
theorem status_ignored (r : Resp) (s1 s2 : Nat) :
    run_scrape (Resp.mk s1 r.waf r.contentType r.body) =
      run_scrape (Resp.mk s2 r.waf r.contentType r.body) := rfl

set_option maxRecDepth 8000 in
/-- Claim C8 counterexample: a `Content-Type` ending in `boundary=` yields an
empty boundary token, which the decoder accepts: the body is split on the
bare `--` and the attempt succeeds instead of failing with NoContent. -/
theorem empty_boundary_accepted_cex :
    extractBoundary ct8 = some [] ∧
    run_scrape cresp8 = Outcome.success cprice ∧
    Outcome.success cprice ≠ Outcome.noContent := by decide

/-- Claim C8 (amended): a `Content-Type` with no `boundary=` parameter makes
the attempt fail with NoContent, and the failure is confined to that attempt:
a later attempt of the same run can still make the whole run succeed. -/
theorem missing_boundary_noContent (r : Resp)
    (hw : containsSub captchaLit (lowerStr r.waf) = false)
    (hb : extractBoundary r.contentType = none) :
    run_scrape r = Outcome.noContent ∧
    ∀ (fetch : Nat → Resp) (m : Nat) (v : List Char), fetch 0 = r → 2 ≤ m →
      toOpt (run_scrape (fetch 1)) = some v →
      (mainRun (fun i => toOpt (run_scrape (fetch i))) m).2 = some v := by
  have h1 : run_scrape r = Outcome.noContent := by
    rw [run_scrape, if_neg (by simp [hw]), hb]
  refine ⟨h1, ?_⟩
  intro fetch m v h0 h2 hv1
  obtain ⟨k, rfl⟩ : ∃ k, m = k + 2 := ⟨m - 2, by omega⟩
  have hf0 : toOpt (run_scrape (fetch 0)) = none := by rw [h0, h1]; rfl
  have hrun := attemptLoop_first (fun i => toOpt (run_scrape (fetch i))) v 1 (k + 2) 0
    (by simpa using hv1)
    (fun j hj => by
      have hj0 : j = 0 := by omega
      rw [hj0]
      simpa using hf0)
    (by omega)
  rw [mainRun, hrun]

set_option maxRecDepth 8000 in
theorem missing_boundary_noContent_witness :
    (mainRun (fun i => toOpt (run_scrape (cfetch8 i))) 3).2 = some cprice :=
  (missing_boundary_noContent respNB (by decide) (by decide)).2 cfetch8 3 cprice
    (by rfl) (by omega) (by decide)

end RedfinTracker
